import Mathlib

/-!
Verification of the core data transformations of the Shotcraft inventory
application (src/app.py): the data loader (`read_ws_df`, `load_data`), the
inventory calculator (`compute`), and the writeback path (`write_onhand`).

The remote spreadsheet supplies cells as text; `pd.to_numeric` either parses
a cell as a number or leaves it alone.  We embed a cell as:
  - `Cell.num q`      : a cell already holding the number `q` (a column that
                        `read_ws_df` converted to numeric dtype);
  - `Cell.numText q`  : a text cell whose content parses as the number `q`
                        (kept as text because its column was mixed);
  - `Cell.text s`     : a text cell that does not parse as a number.
All reals are modelled as rationals, exactly.  NaN never appears as a cell:
the places pandas produces NaN (failed `errors="coerce"` parses, unmatched
left-join keys) are modelled by `Option` at that point and are immediately
filled by `fillna(0.0)`, as in the code.
-/

namespace Shotcraft

/-- A spreadsheet / dataframe cell. -/
inductive Cell where
  | num (q : ℚ)
  | numText (q : ℚ)
  | text (s : String)
  deriving DecidableEq, Repr

/-- The numeric value of a cell, when it has one: `pd.to_numeric` on a single
cell succeeds on `num` and `numText` cells and fails on `text` cells. -/
def parseCell : Cell → Option ℚ
  | .num q => some q
  | .numText q => some q
  | .text _ => none

/-- One cell of `pd.to_numeric(col, errors="coerce").fillna(0.0)` as used in
`compute` (app.py lines 174-175) and `write_onhand` (line 166): an
unparseable cell becomes NaN, and `fillna` turns the NaN into `0.0`. -/
def coerceNum (c : Cell) : ℚ := (parseCell c).getD 0

/-- Same coercion applied to a possibly missing value (a left-join miss is
NaN before `fillna(0.0)`). -/
def coerceNumOpt : Option Cell → ℚ
  | none => 0
  | some c => coerceNum c

/-- A row of the loaded FORMULA projection `comps` (columns Component,
Per_Case, UOM; app.py lines 152-153). -/
structure CompRow where
  component : Cell
  perCase : Cell
  uom : Cell
  deriving DecidableEq, Repr

/-- A row of the loaded INVENTORY projection `onhand` (columns Component,
On_Hand; app.py lines 155-159). -/
structure OnHandRow where
  component : Cell
  onHand : Cell
  deriving DecidableEq, Repr

/-- A row of the frame `df` built inside `compute` after numeric coercion:
columns Component, UOM, On_Hand, Per_Case, Required, Remaining. -/
structure DispRow where
  component : Cell
  uom : Cell
  onHand : ℚ
  perCase : ℚ
  required : ℚ
  remaining : ℚ
  deriving DecidableEq, Repr

/-- The OnHand rows whose Component cell equals `c` (the merge key match). -/
def matches2 (onhand : List OnHandRow) (c : Cell) : List OnHandRow :=
  onhand.filter (fun o => decide (o.component = c))

/-- Model of `comps.merge(onhand, on="Component", how="left")` (app.py line 172): for
each left row, one output row per matching right row, in left-then-right
order; a left row with no match survives with a missing (NaN) On_Hand. -/
def mergeLeft (comps : List CompRow) (onhand : List OnHandRow) :
    List (CompRow × Option Cell) :=
  comps.flatMap (fun c =>
    match matches2 onhand c.component with
    | [] => [(c, none)]
    | ms => ms.map (fun (o : OnHandRow) => (c, some o.onHand)))

/-- One row of `df` after app.py lines 174-177: coerce Per_Case and On_Hand,
then `Required = Per_Case * cases` and `Remaining = On_Hand - Required`. -/
def computeRow (cases : ℚ) (p : CompRow × Option Cell) : DispRow :=
  { component := p.1.component
  , uom := p.1.uom
  , onHand := coerceNumOpt p.2
  , perCase := coerceNum p.1.perCase
  , required := coerceNum p.1.perCase * cases
  , remaining := coerceNumOpt p.2 - coerceNum p.1.perCase * cases }

/-- The full frame `df` inside `compute` (app.py lines 172-177). -/
def computeDf (comps : List CompRow) (onhand : List OnHandRow) (cases : ℚ) :
    List DispRow :=
  (mergeLeft comps onhand).map (computeRow cases)

/-- Model of `candidates = df[df["Per_Case"] > 0]` (app.py line 179). -/
def candidates (comps : List CompRow) (onhand : List OnHandRow) (cases : ℚ) :
    List DispRow :=
  (computeDf comps onhand cases).filter (fun r => decide (0 < r.perCase))

/-- The per-row quotient `On_Hand / Per_Case` of app.py line 181. -/
def ratioOf (r : DispRow) : ℚ := r.onHand / r.perCase

/-- Minimum of a nonempty collection given as head plus tail (the pandas
`Series.min()` of app.py line 181). -/
def minList (x : ℚ) (l : List ℚ) : ℚ := l.foldl min x

/-- Model of `max_sellable` (app.py lines 179-183): 0 when no row has Per_Case > 0,
otherwise `int(math.floor((candidates.On_Hand / candidates.Per_Case).min()))`. -/
def max_sellable (comps : List CompRow) (onhand : List OnHandRow) (cases : ℚ) :
    ℤ :=
  match candidates comps onhand cases with
  | [] => 0
  | r :: rs => Rat.floor (minList (ratioOf r) (rs.map ratioOf))

/-- Model of `shortages = df[df["Remaining"] < 0]` (app.py line 185). -/
def shortagesDf (comps : List CompRow) (onhand : List OnHandRow) (cases : ℚ) :
    List DispRow :=
  (computeDf comps onhand cases).filter (fun r => decide (r.remaining < 0))

/-- Ordering used to model `sort_values("Component")` (app.py line 186):
numeric cells by value, text cells lexicographically, with a fixed rank
between the kinds.  The claims under study do not depend on the relative
order of rows, only on the sorted list being a permutation of `df`. -/
def cellRank : Cell → Nat
  | .num _ => 0
  | .numText _ => 1
  | .text _ => 2

/-- Boolean comparison on cells for the display sort. -/
def cellLe (a b : Cell) : Bool :=
  match a, b with
  | .num x, .num y => decide (x ≤ y)
  | .numText x, .numText y => decide (x ≤ y)
  | .text x, .text y => decide (x ≤ y)
  | a, b => decide (cellRank a ≤ cellRank b)

/-- Row comparison by Component, for `sort_values("Component")`. -/
def dispLe (a b : DispRow) : Bool := cellLe a.component b.component

/-- Model of `display = df[...].sort_values("Component")` (app.py line 186). -/
def displayRows (comps : List CompRow) (onhand : List OnHandRow) (cases : ℚ) :
    List DispRow :=
  (computeDf comps onhand cases).mergeSort dispLe

/-- The triple returned by `compute` (app.py line 187). -/
structure ComputeResult where
  display : List DispRow
  maxSellable : ℤ
  shortages : List DispRow
  deriving DecidableEq, Repr

/-- Model of `compute(comps, onhand, cases)` (app.py lines 171-187). -/
def compute (comps : List CompRow) (onhand : List OnHandRow) (cases : ℚ) :
    ComputeResult :=
  { display := displayRows comps onhand cases
  , maxSellable := max_sellable comps onhand cases
  , shortages := shortagesDf comps onhand cases }

/-! The data loader.  `read_ws_df` (app.py lines 118-126) turns the raw cell
grid of a worksheet into a dataframe: first row is the header, the remaining
rows are data, and each column is passed through
`pd.to_numeric(col, errors="ignore")`, which converts the column to numbers
when every cell of the column parses and leaves the whole column untouched
otherwise. -/

/-- The string content of a raw cell, used for the header row. -/
def cellStr : Cell → String
  | .num q => toString q
  | .numText q => toString q
  | .text s => s

/-- A loaded dataframe: header labels plus data rows. -/
structure Table where
  header : List String
  rows : List (List Cell)
  deriving DecidableEq, Repr

/-- Cell of a row at column index `j`; out-of-range reads give the empty
cell (the grids returned by the sheet API are rectangular). -/
def getCell (row : List Cell) (j : Nat) : Cell := row.getD j (Cell.text "")

/-- Does every data cell of column `j` parse as a number?  This is the
success condition of the column-wise `pd.to_numeric(col, errors="ignore")`. -/
def colNumeric (rows : List (List Cell)) (j : Nat) : Bool :=
  rows.all (fun r => (parseCell (getCell r j)).isSome)

/-- Conversion of one cell when its whole column parsed: a numeric-looking
text cell becomes a number; numbers stay numbers. -/
def convertCell : Cell → Cell
  | .numText q => .num q
  | c => c

/-- Model of `read_ws_df(ws)` (app.py lines 118-126) on the raw grid of a worksheet. -/
def read_ws_df (vals : List (List Cell)) : Table :=
  match vals with
  | [] => { header := [], rows := [] }
  | h :: rest =>
    { header := h.map cellStr
    , rows := rest.map (fun r =>
        (List.range h.length).map (fun j =>
          if colNumeric rest j then convertCell (getCell r j) else getCell r j)) }

/-- Index of the column labelled `name` (first occurrence). -/
def colIdx (t : Table) (name : String) : Nat :=
  (t.header.indexOf? name).getD 0

/-- The cell of row `r` in the column labelled `name`. -/
def colCell (t : Table) (name : String) (r : List Cell) : Cell :=
  getCell r (colIdx t name)

/-- Model of `load_data` (app.py lines 128-161) restricted to its data transformation:
from the two raw grids to the `comps` and `onhand` projections.  `none`
models the `st.error` + `st.stop` schema failure of lines 145-150 (FORMULA
is missing a required column).  When INVENTORY does not have both a
Component and an On_Hand column, a zero-stock OnHand row is synthesized per
component (lines 155-159). -/
def load_data (formulaVals invVals : List (List Cell)) :
    Option (List CompRow × List OnHandRow) :=
  let formula := read_ws_df formulaVals
  let inv := read_ws_df invVals
  if "Component" ∈ formula.header ∧ "Per_Case" ∈ formula.header then
    let comps := formula.rows.map (fun r =>
      { component := colCell formula "Component" r
      , perCase := colCell formula "Per_Case" r
      , uom := if "UOM" ∈ formula.header then colCell formula "UOM" r
               else Cell.text "" : CompRow })
    let onhand :=
      if "Component" ∈ inv.header ∧ "On_Hand" ∈ inv.header then
        inv.rows.map (fun r =>
          { component := colCell inv "Component" r
          , onHand := colCell inv "On_Hand" r : OnHandRow })
      else
        comps.map (fun c => { component := c.component, onHand := Cell.num 0 })
    some (comps, onhand)
  else
    none

/-- The grid written by `write_onhand` (app.py lines 163-169): the header row
followed by one row per input row, On_Hand coerced by
`pd.to_numeric(..., errors="coerce").fillna(0)`. -/
def write_onhand (rows : List OnHandRow) : List (List Cell) :=
  [Cell.text "Component", Cell.text "On_Hand"] ::
    rows.map (fun r => [r.component, Cell.num (coerceNum r.onHand)])

/-- Model of `write_onhand` acting on the stored table: `ws.clear()` followed by
`ws.update(values)` replaces the old content entirely, so the new table
content is `write_onhand rows` whatever was stored before. -/
def write_onhand_store (_oldGrid : List (List Cell)) (rows : List OnHandRow) :
    List (List Cell) :=
  write_onhand rows

/-- What one cell looks like when read back from the sheet: the sheet API
returns every cell as text (`get_all_values`), and a number written by
`ws.update` reads back as a text cell carrying exactly that number. -/
def sheetCell : Cell → Cell
  | .num q => .numText q
  | c => c

/-- A whole written grid as the sheet later returns it. -/
def sheetStore (grid : List (List Cell)) : List (List Cell) :=
  grid.map (fun r => r.map sheetCell)

/-- The data rows of the written INVENTORY grid as the sheet returns them:
every component cell round-trips through the sheet, and every written
On_Hand number comes back as numeric-looking text. -/
def writeBody (rows : List OnHandRow) : List (List Cell) :=
  rows.map (fun r => [sheetCell r.component, Cell.numText (coerceNum r.onHand)])

/-! Concrete fixtures used by the witness theorems.  They realize the worked
example of the specification: component A uses 2 per case with 10 on hand,
component B uses 5 per case with 30 on hand. -/

/-- Example FORMULA projection. -/
def exComps : List CompRow :=
  [ { component := .text "A", perCase := .num 2, uom := .text "ea" }
  , { component := .text "B", perCase := .num 5, uom := .text "ea" } ]

/-- Example INVENTORY projection. -/
def exOnhand : List OnHandRow :=
  [ { component := .text "A", onHand := .num 10 }
  , { component := .text "B", onHand := .num 30 } ]

/-- The computed row for component A at cases = 3. -/
def exRowA : DispRow :=
  { component := .text "A", uom := .text "ea"
  , onHand := 10, perCase := 2, required := 6, remaining := 4 }

/-- The computed row for component B at cases = 3. -/
def exRowB : DispRow :=
  { component := .text "B", uom := .text "ea"
  , onHand := 30, perCase := 5, required := 15, remaining := 15 }

/-- The computed row for component A at cases = 6 (a shortage). -/
def exRowA6 : DispRow :=
  { component := .text "A", uom := .text "ea"
  , onHand := 10, perCase := 2, required := 12, remaining := -2 }

/-- A one-component formula used by the negative-stock example. -/
def exNegComps : List CompRow :=
  [ { component := .text "A", perCase := .num 1, uom := .text "ea" } ]

/-- A negative on-hand quantity for that component. -/
def exNegOnhand : List OnHandRow :=
  [ { component := .text "A", onHand := .num (-5) } ]

/-- A formula with a component that has no on-hand row at all. -/
def exCompsC : List CompRow :=
  [ { component := .text "C", perCase := .num 4, uom := .text "ea" } ]

/-- An empty inventory list. -/
def exOnhandNone : List OnHandRow := []

/-- A one-component formula used by the duplicate-key example. -/
def exDupComps : List CompRow :=
  [ { component := .text "A", perCase := .num 2, uom := .text "ea" } ]

/-- Two on-hand rows carrying the same component name. -/
def exDupOnhand : List OnHandRow :=
  [ { component := .text "A", onHand := .num 1 }
  , { component := .text "A", onHand := .num 3 } ]

/-- An edited inventory row whose On_Hand cell is unparseable text. -/
def exWriteRows : List OnHandRow :=
  [ { component := .text "A", onHand := .text "oops" } ]

/-- A FORMULA grid missing the required Per_Case column. -/
def exBadFormulaGrid : List (List Cell) :=
  [ [Cell.text "Component", Cell.text "UOM"]
  , [Cell.text "A", Cell.text "ea"] ]

/-- A well-formed FORMULA grid. -/
def exFormulaGrid : List (List Cell) :=
  [ [Cell.text "Component", Cell.text "Per_Case"]
  , [Cell.text "A", Cell.numText 2] ]

/-- A well-formed INVENTORY grid. -/
def exInvGrid : List (List Cell) :=
  [ [Cell.text "Component", Cell.text "On_Hand"]
  , [Cell.text "A", Cell.numText 4] ]

/-- An entirely missing INVENTORY tab: an empty grid. -/
def exEmptyInvGrid : List (List Cell) := []

/-- Edited rows used by the round-trip witness. -/
def exRoundRows : List OnHandRow :=
  [ { component := .text "A", onHand := .num 7 } ]

end Shotcraft

namespace Shotcraft

/-! Helper lemmas about the fold that realizes the pandas `Series.min()`. -/

theorem minList_le_init (l : List ℚ) (x : ℚ) : minList x l ≤ x := by
  induction l generalizing x with
  | nil => exact le_refl x
  | cons y ys ih =>
    exact le_trans (ih (min x y)) (min_le_left x y)

theorem minList_le_mem (l : List ℚ) (x : ℚ) :
    ∀ y ∈ l, minList x l ≤ y := by
  induction l generalizing x with
  | nil => intro y hy; cases hy
  | cons z zs ih =>
    intro y hy
    rcases List.mem_cons.mp hy with h | h
    · subst h
      exact le_trans (minList_le_init zs (min x y)) (min_le_right x y)
    · exact ih (min x z) y h

theorem minList_eq_or_mem (l : List ℚ) (x : ℚ) :
    minList x l = x ∨ minList x l ∈ l := by
  induction l generalizing x with
  | nil => exact Or.inl rfl
  | cons z zs ih =>
    rcases ih (min x z) with h | h
    · rcases min_choice x z with hx | hz
      · exact Or.inl (by rw [show minList x (z :: zs) = minList (min x z) zs from rfl, h, hx])
      · exact Or.inr (List.mem_cons.mpr (Or.inl (by rw [show minList x (z :: zs) = minList (min x z) zs from rfl, h, hz])))
    · exact Or.inr (List.mem_cons.mpr (Or.inr h))

/-- Every row of the merged frame comes from a component row of the left
input (the left join never invents rows). -/
theorem mergeLeft_fst_mem {comps : List CompRow} {onhand : List OnHandRow}
    {p : CompRow × Option Cell} (h : p ∈ mergeLeft comps onhand) :
    p.1 ∈ comps := by
  rcases List.mem_flatMap.mp h with ⟨c, hc, hp⟩
  revert hp
  cases hms : matches2 onhand c.component with
  | nil =>
    intro hp
    rcases List.mem_singleton.mp hp with rfl
    exact hc
  | cons o os =>
    intro hp
    rcases List.mem_map.mp hp with ⟨o2, _, rfl⟩
    exact hc

/-- Every row of `df` has as Per_Case the coerced Per_Case of a component
row of the input. -/
theorem computeDf_perCase_from_comps {comps : List CompRow}
    {onhand : List OnHandRow} {cases : ℚ} {r : DispRow}
    (h : r ∈ computeDf comps onhand cases) :
    ∃ c ∈ comps, r.perCase = coerceNum c.perCase := by
  rcases List.mem_map.mp h with ⟨p, hp, rfl⟩
  exact ⟨p.1, mergeLeft_fst_mem hp, rfl⟩

/-- C1: `compute` returns `max_sellable` equal to the floor of the minimum
of `On_Hand / Per_Case` taken over exactly the rows with `Per_Case > 0`
(the candidate rows of the merged frame): the result is a lower bound of the
floored ratios, it is attained at some candidate row when any exists, and it
is 0 when there is no candidate row, in particular whenever no component of
the input has a positive coerced Per_Case (including the empty input). -/
theorem spec_C1 (comps : List CompRow) (onhand : List OnHandRow) (cases : ℚ) :
    (∀ r, r ∈ candidates comps onhand cases ↔
        r ∈ computeDf comps onhand cases ∧ 0 < r.perCase)
    ∧ (candidates comps onhand cases = [] →
        (compute comps onhand cases).maxSellable = 0)
    ∧ (∀ r ∈ candidates comps onhand cases,
        (compute comps onhand cases).maxSellable ≤ Rat.floor (ratioOf r))
    ∧ (candidates comps onhand cases ≠ [] →
        ∃ r ∈ candidates comps onhand cases,
          (compute comps onhand cases).maxSellable = Rat.floor (ratioOf r))
    ∧ ((∀ c ∈ comps, ¬ 0 < coerceNum c.perCase) →
        (compute comps onhand cases).maxSellable = 0) := by
  have hchar : ∀ r, r ∈ candidates comps onhand cases ↔
      r ∈ computeDf comps onhand cases ∧ 0 < r.perCase := by
    intro r
    unfold candidates
    rw [List.mem_filter]
    simp only [decide_eq_true_eq]
  have hms : (compute comps onhand cases).maxSellable
      = max_sellable comps onhand cases := rfl
  refine ⟨hchar, ?_, ?_, ?_, ?_⟩
  · intro hemp
    rw [hms]
    unfold max_sellable
    rw [hemp]
  · intro r hr
    rw [hms]
    unfold max_sellable
    cases hc : candidates comps onhand cases with
    | nil => rw [hc] at hr; cases hr
    | cons a rest =>
      rw [hc] at hr
      have hle : minList (ratioOf a) (rest.map ratioOf) ≤ ratioOf r := by
        rcases List.mem_cons.mp hr with rfl | hmem
        · exact minList_le_init _ _
        · exact minList_le_mem _ _ _ (List.mem_map.mpr ⟨r, hmem, rfl⟩)
      calc Rat.floor (minList (ratioOf a) (rest.map ratioOf))
          = ⌊minList (ratioOf a) (rest.map ratioOf)⌋ := rfl
        _ ≤ ⌊ratioOf r⌋ := Int.floor_le_floor hle
        _ = Rat.floor (ratioOf r) := rfl
  · intro hne
    rw [hms]
    unfold max_sellable
    cases hc : candidates comps onhand cases with
    | nil => exact absurd hc hne
    | cons a rest =>
      rcases minList_eq_or_mem (rest.map ratioOf) (ratioOf a) with h | h
      · exact ⟨a, List.mem_cons_self a rest,
          show Rat.floor (minList (ratioOf a) (rest.map ratioOf))
              = Rat.floor (ratioOf a) from by rw [h]⟩
      · rcases List.mem_map.mp h with ⟨r, hr, hrr⟩
        exact ⟨r, List.mem_cons_of_mem a hr,
          show Rat.floor (minList (ratioOf a) (rest.map ratioOf))
              = Rat.floor (ratioOf r) from by rw [← hrr]⟩
  · intro hall
    rw [hms]
    unfold max_sellable
    cases hc : candidates comps onhand cases with
    | nil => rfl
    | cons a rest =>
      exfalso
      have ha : a ∈ candidates comps onhand cases := by
        rw [hc]; exact List.mem_cons_self a rest
      rcases (hchar a).mp ha with ⟨hdf, hpos⟩
      rcases computeDf_perCase_from_comps hdf with ⟨c, hcm, hpc⟩
      exact hall c hcm (hpc ▸ hpos)

/-- Witness for C1 at the worked example (cases = 3): the row of component A
is a candidate row and the returned `max_sellable` is bounded by its floored
ratioOf. -/
theorem spec_C1_witness :
    (compute exComps exOnhand 3).maxSellable ≤ Rat.floor (ratioOf exRowA) :=
  (spec_C1 exComps exOnhand 3).2.2.1 exRowA
    (by simp [candidates, computeDf, mergeLeft, matches2, computeRow,
          coerceNum, coerceNumOpt, parseCell, exComps, exOnhand, exRowA]
        norm_num)

/-- C2: the shortage frame of `compute` holds exactly the rows of `df` with
`Remaining < 0`; a row with `Remaining = 0` is never a shortage; and in
every row of `df`, `Remaining = On_Hand - Per_Case * cases`. -/
theorem spec_C2 (comps : List CompRow) (onhand : List OnHandRow) (cases : ℚ) :
    (∀ r, r ∈ (compute comps onhand cases).shortages ↔
        r ∈ computeDf comps onhand cases ∧ r.remaining < 0)
    ∧ (∀ r ∈ computeDf comps onhand cases, r.remaining = 0 →
        r ∉ (compute comps onhand cases).shortages)
    ∧ (∀ r ∈ computeDf comps onhand cases,
        r.remaining = r.onHand - r.perCase * cases) := by
  have hmem : ∀ r, r ∈ (compute comps onhand cases).shortages ↔
      r ∈ computeDf comps onhand cases ∧ r.remaining < 0 := by
    intro r
    show r ∈ shortagesDf comps onhand cases ↔ _
    unfold shortagesDf
    rw [List.mem_filter]
    simp only [decide_eq_true_eq]
  refine ⟨hmem, ?_, ?_⟩
  · intro r _ hz hc
    rcases (hmem r).mp hc with ⟨_, hneg⟩
    rw [hz] at hneg
    exact lt_irrefl 0 hneg
  · intro r hr
    rcases List.mem_map.mp hr with ⟨p, _, rfl⟩
    rfl

/-- Witness for C2 at the worked example with cases = 6: the row of
component A has remaining -2 and is reported as a shortage. -/
theorem spec_C2_witness :
    exRowA6 ∈ (compute exComps exOnhand 6).shortages :=
  ((spec_C2 exComps exOnhand 6).1 exRowA6).mpr
    ⟨by simp [computeDf, mergeLeft, matches2, computeRow, coerceNum,
          coerceNumOpt, parseCell, exComps, exOnhand, exRowA6]
        norm_num,
     by norm_num [exRowA6]⟩

/-- C8: the quotient `On_Hand / Per_Case` inside `max_sellable` is evaluated
only on the candidate rows, and every candidate row has a strictly positive
(hence nonzero) Per_Case, so no division by zero is ever performed; and
`compute` is total, returning its three frames on every input. -/
theorem spec_C8 (comps : List CompRow) (onhand : List OnHandRow) (cases : ℚ) :
    (∀ r ∈ candidates comps onhand cases, 0 < r.perCase ∧ r.perCase ≠ 0)
    ∧ compute comps onhand cases =
        { display := displayRows comps onhand cases
        , maxSellable := max_sellable comps onhand cases
        , shortages := shortagesDf comps onhand cases } := by
  refine ⟨?_, rfl⟩
  intro r hr
  have := List.of_mem_filter hr
  have hpos : 0 < r.perCase := of_decide_eq_true this
  exact ⟨hpos, ne_of_gt hpos⟩

/-- Witness for C8: at the worked example the row of component A is a
candidate row, and its Per_Case is positive and nonzero. -/
theorem spec_C8_witness :
    0 < exRowA.perCase ∧ exRowA.perCase ≠ 0 :=
  (spec_C8 exComps exOnhand 3).1 exRowA
    (by simp [candidates, computeDf, mergeLeft, matches2, computeRow,
          coerceNum, coerceNumOpt, parseCell, exComps, exOnhand, exRowA]
        norm_num)

/-- C10: `compute` does not clamp `max_sellable` at zero: with one component
of Per_Case 1 and On_Hand -5, the returned `max_sellable` is -5 < 0. -/
theorem spec_C10 :
    (compute exNegComps exNegOnhand 0).maxSellable = -5
    ∧ (compute exNegComps exNegOnhand 0).maxSellable < 0 := by
  have h : (compute exNegComps exNegOnhand 0).maxSellable = -5 := by
    show max_sellable exNegComps exNegOnhand 0 = -5
    have hc : candidates exNegComps exNegOnhand 0 =
        [{ component := .text "A", uom := .text "ea"
         , onHand := -5, perCase := 1, required := 0, remaining := -5 }] := by
      simp [candidates, computeDf, mergeLeft, matches2, computeRow,
        coerceNum, coerceNumOpt, parseCell, exNegComps, exNegOnhand]
    unfold max_sellable
    rw [hc]
    show Rat.floor (minList ((-5 : ℚ) / 1) []) = -5
    norm_num [minList]
    show Rat.floor (-5 : ℚ) = -5
    decide
  exact ⟨h, by rw [h]; decide⟩

/-- A left row always contributes at least one merged pair. -/
theorem mergeLeft_exists {comps : List CompRow} {onhand : List OnHandRow}
    {c : CompRow} (hc : c ∈ comps) :
    ∃ p ∈ mergeLeft comps onhand, p.1 = c := by
  cases hms : matches2 onhand c.component with
  | nil =>
    refine ⟨(c, none), List.mem_flatMap.mpr ⟨c, hc, ?_⟩, rfl⟩
    rw [hms]
    exact List.mem_singleton.mpr rfl
  | cons o os =>
    refine ⟨(c, some o.onHand), List.mem_flatMap.mpr ⟨c, hc, ?_⟩, rfl⟩
    rw [hms]
    exact List.mem_map.mpr ⟨o, List.mem_cons_self o os, rfl⟩

/-- A merged pair with no match for its key is exactly the left row with a
missing On_Hand, and a matched pair carries the On_Hand cell of an inventory
row with the same Component cell. -/
theorem mergeLeft_snd {comps : List CompRow} {onhand : List OnHandRow}
    {p : CompRow × Option Cell} (hp : p ∈ mergeLeft comps onhand) :
    (∃ o ∈ onhand, o.component = p.1.component ∧ p.2 = some o.onHand)
    ∨ (matches2 onhand p.1.component = [] ∧ p.2 = none) := by
  rcases List.mem_flatMap.mp hp with ⟨c, _, hmem⟩
  revert hmem
  cases hms : matches2 onhand c.component with
  | nil =>
    intro hmem
    rcases List.mem_singleton.mp hmem with rfl
    exact Or.inr ⟨hms, rfl⟩
  | cons o os =>
    intro hmem
    rcases List.mem_map.mp hmem with ⟨o2, ho2, rfl⟩
    have ho2m : o2 ∈ matches2 onhand c.component := by rw [hms]; exact ho2
    have := List.mem_filter.mp ho2m
    exact Or.inl ⟨o2, this.1, of_decide_eq_true this.2, rfl⟩

/-- The merged pair of an unmatched left row. -/
theorem mergeLeft_unmatched {comps : List CompRow} {onhand : List OnHandRow}
    {c : CompRow} (hc : c ∈ comps)
    (hms : matches2 onhand c.component = []) :
    (c, (none : Option Cell)) ∈ mergeLeft comps onhand := by
  refine List.mem_flatMap.mpr ⟨c, hc, ?_⟩
  rw [hms]
  exact List.mem_singleton.mpr rfl

/-- C3: the display frame is the merged frame (up to the Component sort), the
join is a left join on exact Component equality: every input component
appears in the display, an unmatched component survives with On_Hand 0 used
for Required and Remaining, and every displayed On_Hand value is either the
coerced On_Hand of an inventory row with the same Component cell or the 0.0
filled in for a missing match. -/
theorem spec_C3 (comps : List CompRow) (onhand : List OnHandRow) (cases : ℚ) :
    (∀ r, r ∈ (compute comps onhand cases).display ↔
        r ∈ computeDf comps onhand cases)
    ∧ (∀ c ∈ comps, ∃ r ∈ (compute comps onhand cases).display,
        r.component = c.component)
    ∧ (∀ c ∈ comps, matches2 onhand c.component = [] →
        ∃ r ∈ (compute comps onhand cases).display,
          r.component = c.component ∧ r.onHand = 0
          ∧ r.required = r.perCase * cases
          ∧ r.remaining = 0 - r.perCase * cases)
    ∧ (∀ r ∈ (compute comps onhand cases).display,
        (∃ o ∈ onhand, o.component = r.component
            ∧ r.onHand = coerceNum o.onHand)
        ∨ (matches2 onhand r.component = [] ∧ r.onHand = 0)) := by
  have hdisp : ∀ r, r ∈ (compute comps onhand cases).display ↔
      r ∈ computeDf comps onhand cases := by
    intro r
    show r ∈ (computeDf comps onhand cases).mergeSort dispLe ↔ _
    exact List.mem_mergeSort
  refine ⟨hdisp, ?_, ?_, ?_⟩
  · intro c hc
    rcases @mergeLeft_exists comps onhand c hc with ⟨p, hp, hfst⟩
    refine ⟨computeRow cases p, (hdisp _).mpr (List.mem_map.mpr ⟨p, hp, rfl⟩), ?_⟩
    show p.1.component = c.component
    rw [hfst]
  · intro c hc hms
    refine ⟨computeRow cases (c, none),
      (hdisp _).mpr (List.mem_map.mpr ⟨(c, none), mergeLeft_unmatched hc hms, rfl⟩),
      rfl, rfl, rfl, rfl⟩
  · intro r hr
    rcases List.mem_map.mp ((hdisp r).mp hr) with ⟨p, hp, rfl⟩
    rcases mergeLeft_snd hp with ⟨o, ho, hoc, hsnd⟩ | ⟨hms, hsnd⟩
    · refine Or.inl ⟨o, ho, hoc, ?_⟩
      show coerceNumOpt p.2 = coerceNum o.onHand
      rw [hsnd]
      rfl
    · refine Or.inr ⟨hms, ?_⟩
      show coerceNumOpt p.2 = 0
      rw [hsnd]
      rfl

/-- Witness for C3: component C has no inventory row, yet it appears in the
display with On_Hand 0 and Remaining computed from that 0. -/
theorem spec_C3_witness :
    ∃ r ∈ (compute exCompsC exOnhandNone 2).display,
      r.component = (Cell.text "C") ∧ r.onHand = 0
      ∧ r.required = r.perCase * 2
      ∧ r.remaining = 0 - r.perCase * 2 :=
  (spec_C3 exCompsC exOnhandNone 2).2.2.1
    { component := .text "C", perCase := .num 4, uom := .text "ea" }
    (by decide) rfl

/-- In a list of inventory rows with pairwise distinct Component cells, at
most one row matches any given key. -/
theorem matches2_len_le_one {onhand : List OnHandRow}
    (h : (onhand.map OnHandRow.component).Nodup) (key : Cell) :
    (matches2 onhand key).length ≤ 1 := by
  induction onhand with
  | nil => exact Nat.zero_le 1
  | cons o os ih =>
    rcases List.nodup_cons.mp h with ⟨hnot, htail⟩
    have hstep : matches2 (o :: os) key =
        if decide (o.component = key) then o :: matches2 os key
        else matches2 os key := List.filter_cons
    rw [hstep]
    by_cases heq : o.component = key
    · rw [if_pos (decide_eq_true heq)]
      have hnil : matches2 os key = [] := by
        refine List.filter_eq_nil_iff.mpr ?_
        intro o2 ho2 hdec
        have : o2.component = key := of_decide_eq_true hdec
        exact hnot (List.mem_map.mpr ⟨o2, ho2, by rw [this, heq]⟩)
      rw [hnil]
      exact le_refl 1
    · rw [if_neg (by simpa using heq)]
      exact ih htail

/-- With pairwise distinct inventory keys the left join emits exactly one
row per left row. -/
theorem mergeLeft_length {comps : List CompRow} {onhand : List OnHandRow}
    (h : (onhand.map OnHandRow.component).Nodup) :
    (mergeLeft comps onhand).length = comps.length := by
  induction comps with
  | nil => rfl
  | cons c cs ih =>
    have hstep : mergeLeft (c :: cs) onhand =
        (match matches2 onhand c.component with
          | [] => [(c, (none : Option Cell))]
          | ms => ms.map (fun (o : OnHandRow) => (c, some o.onHand))) ++ mergeLeft cs onhand := rfl
    rw [hstep, List.length_append]
    have hone : (match matches2 onhand c.component with
        | [] => [(c, (none : Option Cell))]
        | ms => ms.map (fun (o : OnHandRow) => (c, some o.onHand))).length = 1 := by
      have hle := matches2_len_le_one h c.component
      cases hms : matches2 onhand c.component with
      | nil => rfl
      | cons o os =>
        cases os with
        | nil => rfl
        | cons o2 os2 =>
          rw [hms] at hle
          exact absurd hle (by simp)
    rw [hone, ih, List.length_cons]
    omega

/-- C9: when no Component name is duplicated in the OnHand list the display
has exactly one row per input component row; with a duplicated Component
name the left join can emit more rows than there are components. -/
theorem spec_C9 :
    (∀ (comps : List CompRow) (onhand : List OnHandRow) (cases : ℚ),
      (onhand.map OnHandRow.component).Nodup →
        ((compute comps onhand cases).display).length = comps.length)
    ∧ ((compute exDupComps exDupOnhand 0).display).length > exDupComps.length := by
  constructor
  · intro comps onhand cases h
    show ((computeDf comps onhand cases).mergeSort dispLe).length = _
    rw [List.length_mergeSort]
    show ((mergeLeft comps onhand).map (computeRow cases)).length = _
    rw [List.length_map]
    exact mergeLeft_length h
  · show ((computeDf exDupComps exDupOnhand 0).mergeSort dispLe).length > _
    rw [List.length_mergeSort]
    simp [computeDf, mergeLeft, matches2, computeRow, exDupComps, exDupOnhand]

/-- Witness for C9: the worked example has distinct component names, so its
display has exactly one row per component. -/
theorem spec_C9_witness :
    ((compute exComps exOnhand 3).display).length = exComps.length :=
  spec_C9.1 exComps exOnhand 3 (by decide)

/-- C6: `write_onhand` ignores the previous table content entirely and emits
the header row followed by exactly one row per input row, in input order,
with the On_Hand cell coerced to a number; an unparseable On_Hand coerces
to 0.0. -/
theorem spec_C6 (rows : List OnHandRow) :
    (∀ old1 old2 : List (List Cell),
        write_onhand_store old1 rows = write_onhand_store old2 rows)
    ∧ (write_onhand rows).head? =
        some [Cell.text "Component", Cell.text "On_Hand"]
    ∧ (write_onhand rows).tail =
        rows.map (fun r => [r.component, Cell.num (coerceNum r.onHand)])
    ∧ (write_onhand rows).length = rows.length + 1
    ∧ (∀ r ∈ rows, parseCell r.onHand = none → coerceNum r.onHand = 0) := by
  refine ⟨fun _ _ => rfl, rfl, rfl, ?_, ?_⟩
  · show (rows.map (fun r => [r.component, Cell.num (coerceNum r.onHand)])).length + 1
        = rows.length + 1
    rw [List.length_map]
  · intro r _ hp
    unfold coerceNum
    rw [hp]
    rfl

/-- Witness for C6: the unparseable On_Hand text of the example edit rows is
written as 0.0. -/
theorem spec_C6_witness :
    coerceNum (Cell.text "oops") = 0 :=
  (spec_C6 exWriteRows).2.2.2.2
    { component := .text "A", onHand := .text "oops" } (by decide) rfl

/-- C5: within the loader model, `load_data` fails exactly when the FORMULA
table is missing one of its two required columns Component and Per_Case; and
when the optional UOM column is absent every loaded component row carries
the empty string as its UOM. -/
theorem spec_C5 (fg ig : List (List Cell)) :
    (load_data fg ig = none ↔
      ("Component" ∉ (read_ws_df fg).header
        ∨ "Per_Case" ∉ (read_ws_df fg).header))
    ∧ ("UOM" ∉ (read_ws_df fg).header →
        ∀ cs oh, load_data fg ig = some (cs, oh) →
          ∀ c ∈ cs, c.uom = Cell.text "") := by
  constructor
  · by_cases hcond : "Component" ∈ (read_ws_df fg).header
        ∧ "Per_Case" ∈ (read_ws_df fg).header
    · constructor
      · intro hnone
        exfalso
        simp only [load_data] at hnone
        rw [if_pos hcond] at hnone
        exact Option.noConfusion hnone
      · intro hor
        exfalso
        rcases hor with h | h
        · exact h hcond.1
        · exact h hcond.2
    · constructor
      · intro _
        exact not_and_or.mp hcond
      · intro _
        simp only [load_data]
        rw [if_neg hcond]
  · intro hUOM cs oh hload c hc
    by_cases hcond : "Component" ∈ (read_ws_df fg).header
        ∧ "Per_Case" ∈ (read_ws_df fg).header
    · simp only [load_data] at hload
      rw [if_pos hcond] at hload
      have hpair := Option.some.inj hload
      rw [Prod.mk.injEq] at hpair
      obtain ⟨h1, _⟩ := hpair
      subst h1
      rcases List.mem_map.mp hc with ⟨r, _, rfl⟩
      show (if "UOM" ∈ (read_ws_df fg).header
          then colCell (read_ws_df fg) "UOM" r else Cell.text "") = Cell.text ""
      rw [if_neg hUOM]
    · simp only [load_data] at hload
      rw [if_neg hcond] at hload
      exact Option.noConfusion hload

/-- Witness for C5: a FORMULA grid without a Per_Case column makes
`load_data` fail with the schema error. -/
theorem spec_C5_witness :
    load_data exBadFormulaGrid exInvGrid = none :=
  (spec_C5 exBadFormulaGrid exInvGrid).1.mpr (Or.inr (by decide))

/-- When every inventory row holds a zero On_Hand cell, every row of the
merged frame has the coerced On_Hand 0. -/
theorem computeDf_onHand_zero {comps : List CompRow} {onhand : List OnHandRow}
    (h : ∀ o ∈ onhand, o.onHand = Cell.num 0) (cases : ℚ) :
    ∀ r ∈ computeDf comps onhand cases, r.onHand = 0 := by
  intro r hr
  rcases List.mem_map.mp hr with ⟨p, hp, rfl⟩
  rcases mergeLeft_snd hp with ⟨o, ho, _, hsnd⟩ | ⟨_, hsnd⟩
  · show coerceNumOpt p.2 = 0
    rw [hsnd, h o ho]
    rfl
  · show coerceNumOpt p.2 = 0
    rw [hsnd]
    rfl

/-- C4: when the INVENTORY table has neither a Component nor an On_Hand
column, `load_data` still succeeds and synthesizes a zero-stock OnHand row
per component; consequently, for any positive cases, every merged row with
positive Per_Case has negative Remaining and is reported as a shortage. -/
theorem spec_C4 (fg ig : List (List Cell))
    (hf : "Component" ∈ (read_ws_df fg).header
        ∧ "Per_Case" ∈ (read_ws_df fg).header)
    (hi : "Component" ∉ (read_ws_df ig).header
        ∧ "On_Hand" ∉ (read_ws_df ig).header) :
    ∃ cs oh, load_data fg ig = some (cs, oh)
      ∧ oh = cs.map (fun c =>
          { component := c.component, onHand := Cell.num 0 })
      ∧ ∀ cases : ℚ, 0 < cases →
          ∀ r ∈ computeDf cs oh cases, 0 < r.perCase →
            r.remaining < 0 ∧ r ∈ (compute cs oh cases).shortages := by
  have hni : ¬("Component" ∈ (read_ws_df ig).header
      ∧ "On_Hand" ∈ (read_ws_df ig).header) := fun hand => hi.1 hand.1
  refine ⟨(read_ws_df fg).rows.map (fun r2 =>
      ({ component := colCell (read_ws_df fg) "Component" r2
       , perCase := colCell (read_ws_df fg) "Per_Case" r2
       , uom := if "UOM" ∈ (read_ws_df fg).header
                then colCell (read_ws_df fg) "UOM" r2
                else Cell.text "" } : CompRow)), _, ?_, rfl, ?_⟩
  · simp only [load_data]
    rw [if_pos hf, if_neg hni]
  · intro cases hcases r hr hpos
    have hz : ∀ o ∈ (List.map (fun r2 =>
        ({ component := colCell (read_ws_df fg) "Component" r2
         , perCase := colCell (read_ws_df fg) "Per_Case" r2
         , uom := if "UOM" ∈ (read_ws_df fg).header
                  then colCell (read_ws_df fg) "UOM" r2
                  else Cell.text "" } : CompRow)) (read_ws_df fg).rows).map
          (fun c => ({ component := c.component, onHand := Cell.num 0 } : OnHandRow)),
        o.onHand = Cell.num 0 := by
      intro o ho
      rcases List.mem_map.mp ho with ⟨c, _, rfl⟩
      rfl
    have hoh : r.onHand = 0 := computeDf_onHand_zero hz cases r hr
    have hrem : r.remaining = r.onHand - r.perCase * cases := by
      rcases List.mem_map.mp hr with ⟨p, _, rfl⟩
      rfl
    have hneg : r.remaining < 0 := by
      rw [hrem, hoh, zero_sub, neg_lt_zero]
      exact mul_pos hpos hcases
    refine ⟨hneg, ?_⟩
    show r ∈ shortagesDf _ _ cases
    exact List.mem_filter.mpr ⟨hr, decide_eq_true hneg⟩

/-- Witness for C4: a valid FORMULA grid together with an entirely missing
INVENTORY grid loads with synthesized zero stock, and every positive-usage
row is a shortage for any positive order. -/
theorem spec_C4_witness :
    ∃ cs oh, load_data exFormulaGrid exEmptyInvGrid = some (cs, oh)
      ∧ oh = cs.map (fun c =>
          { component := c.component, onHand := Cell.num 0 })
      ∧ ∀ cases : ℚ, 0 < cases →
          ∀ r ∈ computeDf cs oh cases, 0 < r.perCase →
            r.remaining < 0 ∧ r ∈ (compute cs oh cases).shortages :=
  spec_C4 exFormulaGrid exEmptyInvGrid ⟨by decide, by decide⟩
    ⟨by decide, by decide⟩

/-- The written grid, as the sheet returns it, is the two-column header row
followed by the written body. -/
theorem sheetStore_write (rows : List OnHandRow) :
    sheetStore (write_onhand rows) =
      [Cell.text "Component", Cell.text "On_Hand"] :: writeBody rows := by
  unfold sheetStore write_onhand writeBody
  rw [List.map_cons, List.map_map]
  rfl

/-- Reloading the written grid finds exactly the Component and On_Hand
column labels. -/
theorem read_write_header (rows : List OnHandRow) :
    (read_ws_df (sheetStore (write_onhand rows))).header
      = ["Component", "On_Hand"] := by
  rw [sheetStore_write]
  rfl

/-- The reloaded data rows of the written grid, before column projection. -/
theorem read_write_rows (rows : List OnHandRow) :
    (read_ws_df (sheetStore (write_onhand rows))).rows =
      (writeBody rows).map (fun r =>
        (List.range 2).map (fun j =>
          if colNumeric (writeBody rows) j then convertCell (getCell r j)
          else getCell r j)) := by
  rw [sheetStore_write]
  rfl

/-- Every cell of the written On_Hand column parses as a number, so the
column-wise `pd.to_numeric(col, errors="ignore")` converts that column. -/
theorem colNumeric_writeBody (rows : List OnHandRow) :
    colNumeric (writeBody rows) 1 = true := by
  unfold colNumeric writeBody
  rw [List.all_eq_true]
  intro x hx
  rcases List.mem_map.mp hx with ⟨r, _, rfl⟩
  rfl

/-- The On_Hand cells read back from the written grid are exactly the
numbers that were written. -/
theorem read_write_onhand_cells (rows : List OnHandRow) :
    ((read_ws_df (sheetStore (write_onhand rows))).rows).map
        (fun r => getCell r 1)
      = rows.map (fun r => Cell.num (coerceNum r.onHand)) := by
  rw [read_write_rows, List.map_map]
  show (writeBody rows).map _ = _
  unfold writeBody
  rw [List.map_map]
  refine List.map_congr_left ?_
  intro r _
  show getCell ((List.range 2).map (fun j =>
      if colNumeric (writeBody rows) j
      then convertCell (getCell [sheetCell r.component,
            Cell.numText (coerceNum r.onHand)] j)
      else getCell [sheetCell r.component,
            Cell.numText (coerceNum r.onHand)] j)) 1
    = Cell.num (coerceNum r.onHand)
  rw [show List.range 2 = [0, 1] from rfl]
  show (if colNumeric (writeBody rows) 1
      then convertCell (Cell.numText (coerceNum r.onHand))
      else Cell.numText (coerceNum r.onHand)) = Cell.num (coerceNum r.onHand)
  rw [colNumeric_writeBody]
  rfl

/-- The reloaded grid has as many data rows as were written. -/
theorem read_write_length (rows : List OnHandRow) :
    ((read_ws_df (sheetStore (write_onhand rows))).rows).length
      = rows.length := by
  rw [read_write_rows, List.length_map]
  unfold writeBody
  rw [List.length_map]

/-- C7: round-trip.  Writing any edited rows with `write_onhand` and then
loading from the same store (with the written numbers coming back as text
through the sheet) succeeds whenever the FORMULA grid is valid, and the
loaded on-hand list has exactly the coerced numeric On_Hand values that
were written, one per input row. -/
theorem spec_C7 (fg : List (List Cell)) (rows : List OnHandRow)
    (hf : "Component" ∈ (read_ws_df fg).header
        ∧ "Per_Case" ∈ (read_ws_df fg).header) :
    ∃ cs oh, load_data fg (sheetStore (write_onhand rows)) = some (cs, oh)
      ∧ oh.map (fun o => coerceNum o.onHand)
          = rows.map (fun r => coerceNum r.onHand)
      ∧ oh.length = rows.length := by
  have hcond : "Component" ∈ (read_ws_df (sheetStore (write_onhand rows))).header
      ∧ "On_Hand" ∈ (read_ws_df (sheetStore (write_onhand rows))).header := by
    rw [read_write_header]
    exact ⟨by decide, by decide⟩
  have hidx : colIdx (read_ws_df (sheetStore (write_onhand rows))) "On_Hand"
      = 1 := by
    unfold colIdx
    rw [read_write_header]
    rfl
  refine ⟨(read_ws_df fg).rows.map (fun r2 =>
      ({ component := colCell (read_ws_df fg) "Component" r2
       , perCase := colCell (read_ws_df fg) "Per_Case" r2
       , uom := if "UOM" ∈ (read_ws_df fg).header
                then colCell (read_ws_df fg) "UOM" r2
                else Cell.text "" } : CompRow)),
    ((read_ws_df (sheetStore (write_onhand rows))).rows).map (fun r2 =>
      ({ component := colCell (read_ws_df (sheetStore (write_onhand rows)))
            "Component" r2
       , onHand := colCell (read_ws_df (sheetStore (write_onhand rows)))
            "On_Hand" r2 } : OnHandRow)),
    ?_, ?_, ?_⟩
  · simp only [load_data]
    rw [if_pos hf, if_pos hcond]
  · rw [List.map_map]
    have h2 : (((read_ws_df (sheetStore (write_onhand rows))).rows).map
          (fun r => getCell r 1)).map coerceNum
        = (rows.map (fun r => Cell.num (coerceNum r.onHand))).map coerceNum :=
      congrArg (List.map coerceNum) (read_write_onhand_cells rows)
    rw [List.map_map, List.map_map] at h2
    have h3 : (((read_ws_df (sheetStore (write_onhand rows))).rows).map
          (fun r => coerceNum (getCell r 1)))
        = rows.map (fun r => coerceNum r.onHand) := h2
    rw [← h3]
    refine List.map_congr_left ?_
    intro r _
    show coerceNum (colCell (read_ws_df (sheetStore (write_onhand rows)))
        "On_Hand" r) = coerceNum (getCell r 1)
    unfold colCell
    rw [hidx]
  · rw [List.length_map]
    exact read_write_length rows

/-- Witness for C7: writing one row with On_Hand 7 and reloading against the
valid example FORMULA grid recovers the value 7. -/
theorem spec_C7_witness :
    ∃ cs oh,
      load_data exFormulaGrid (sheetStore (write_onhand exRoundRows))
          = some (cs, oh)
      ∧ oh.map (fun o => coerceNum o.onHand)
          = exRoundRows.map (fun r => coerceNum r.onHand)
      ∧ oh.length = exRoundRows.length :=
  spec_C7 exFormulaGrid exRoundRows ⟨by decide, by decide⟩

end Shotcraft
